import Mathlib

/-!
Verification of the snapshot-diff synchronization engine of the
google-calendar-watcher Cloudflare worker (`src/index.ts`).

Timestamps appear in the source as ISO strings compared via
`new Date(s).getTime()`; we model that comparison with an abstract,
total parse function `parse : String → Int` and pass `now : Int` for
the value `new Date(nowIso).getTime()` computed once per run.
JavaScript `Record<string, NormEvent>` objects are modelled as
association lists with JS object semantics (assignment replaces an
existing key in place, otherwise appends; `delete` removes the key).
The paginated provider (`gcalList`) is modelled as the list of
successive page responses the loop would receive, each either a
response value or a thrown error message.
-/

namespace GCal

/-- `NormEvent` of the source: `{ id, summary, start, end }`, all strings. -/
structure NormEvent where
  id : String
  summary : String
  start : String
  «end» : String
deriving DecidableEq, Repr

/-- JS object keyed by event id. -/
abbrev EventMap := List (String × NormEvent)

/-- Property lookup `m[k]`. -/
def EventMap.lookup (m : EventMap) (k : String) : Option NormEvent :=
  match m with
  | [] => none
  | (k1, v) :: rest => if k1 = k then some v else EventMap.lookup rest k

/-- Property assignment `m[k] = v`: replace in place if present, else append. -/
def EventMap.insert (m : EventMap) (k : String) (v : NormEvent) : EventMap :=
  match m with
  | [] => [(k, v)]
  | (k1, v1) :: rest =>
      if k1 = k then (k, v) :: rest else (k1, v1) :: EventMap.insert rest k v

/-- Property deletion `delete m[k]`. -/
def EventMap.erase (m : EventMap) (k : String) : EventMap :=
  match m with
  | [] => []
  | (k1, v1) :: rest =>
      if k1 = k then EventMap.erase rest k else (k1, v1) :: EventMap.erase rest k

/-- `Snapshot` of the source; `updatedAt` holds the parsed value of `nowIso`. -/
structure Snapshot where
  events : EventMap
  updatedAt : Int
deriving DecidableEq, Repr

/-- A raw provider event record, with exactly the fields the source reads:
`status`, `id`, `summary`, `start.dateTime`, `start.date`, `end.dateTime`,
`end.date`.  `none` stands for a JS `null`/`undefined` field and
`some ""` for an empty string (distinct, because `??` only falls through
on nullish values while `!x` also treats `""` as falsy). -/
structure RawEvent where
  status : Option String := none
  id : Option String := none
  summary : Option String := none
  startDateTime : Option String := none
  startDate : Option String := none
  endDateTime : Option String := none
  endDate : Option String := none
deriving DecidableEq, Repr

/-- `normalizeItem`: reject records without a truthy id or without both
boundaries resolvable; default a missing summary to the placeholder. -/
def normalizeItem (ev : RawEvent) : Option NormEvent :=
  match ev.id with
  | none => none
  | some i =>
      if i = "" then none
      else
        let summary := ev.summary.getD "(無題)"
        let start := match ev.startDateTime with
          | some s => some s
          | none => ev.startDate
        let finish := match ev.endDateTime with
          | some e => some e
          | none => ev.endDate
        match start, finish with
        | some s, some e =>
            if s = "" ∨ e = "" then none else some ⟨i, summary, s, e⟩
        | _, _ => none

/-- `isFutureByEnd(ev, nowIso)`: `new Date(ev.end).getTime() > new Date(nowIso).getTime()`. -/
def isFutureByEnd (parse : String → Int) (ev : NormEvent) (now : Int) : Bool :=
  parse ev.«end» > now

/-- `shallowChanged`: differs in summary, start or end. -/
def shallowChanged (a b : NormEvent) : Bool :=
  a.summary != b.summary || a.start != b.start || a.«end» != b.«end»

/-- One page of `events.list` output. -/
structure ListResponse where
  items : List RawEvent := []
  nextPageToken : Option String := none
  nextSyncToken : Option String := none
deriving DecidableEq, Repr

/-- Accumulator state of the `applyIncremental` page loop. -/
structure IncState where
  nextEvents : EventMap
  created : List NormEvent
  updated : List (NormEvent × NormEvent)
  deleted : List NormEvent
deriving DecidableEq, Repr

/-- The body of `applyIncremental`'s `for (const it of items)` loop, processing
one raw record against the working state.  `updated` pairs are `(old, now)`. -/
def processItem (parse : String → Int) (now : Int) (st : IncState) (it : RawEvent) :
    IncState :=
  if it.status = some "cancelled" then
    match it.id with
    | none => st
    | some i =>
        match st.nextEvents.lookup i with
        | none => st
        | some existed =>
            { st with
              nextEvents := st.nextEvents.erase i
              deleted :=
                if isFutureByEnd parse existed now then st.deleted ++ [existed]
                else st.deleted }
  else
    match normalizeItem it with
    | none => st
    | some n =>
        match st.nextEvents.lookup n.id with
        | none =>
            if isFutureByEnd parse n now then
              { st with nextEvents := st.nextEvents.insert n.id n }
            else st
        | some existed =>
            if isFutureByEnd parse n now then
              if shallowChanged existed n then
                { st with
                  nextEvents := st.nextEvents.insert n.id n
                  updated := st.updated ++ [(existed, n)] }
              else st
            else { st with nextEvents := st.nextEvents.erase n.id }

/-- The `do … while (pageToken)` pagination loop: consume successive fetch
results until a page carries no `nextPageToken` (or a fetch throws).
`tok` tracks `nextSyncToken = resp.nextSyncToken ?? nextSyncToken`. -/
def runPages (parse : String → Int) (now : Int) :
    List (Except String ListResponse) → IncState → Option String →
    Except String (IncState × Option String)
  | [], st, tok => Except.ok (st, tok)
  | Except.error e :: _, _, _ => Except.error e
  | Except.ok resp :: rest, st, tok =>
      let st1 := resp.items.foldl (processItem parse now) st
      let tok1 := match resp.nextSyncToken with
        | some t => some t
        | none => tok
      match resp.nextPageToken with
      | none => Except.ok (st1, tok1)
      | some _ => runPages parse now rest st1 tok1

/-- The catch clause's staleness test: `String(e)` contains `"410"` or `"syncToken"`. -/
def staleSignal (e : String) : Bool :=
  decide ("410".data <:+: e.data) || decide ("syncToken".data <:+: e.data)

/-- Result record of `applyIncremental`. -/
structure IncResult where
  next : Snapshot
  created : List NormEvent
  updated : List (NormEvent × NormEvent)
  deleted : List NormEvent
  nextSyncToken : Option String
deriving DecidableEq, Repr

/-- `applyIncremental`: read the stored sync token (defaulting to `""`),
fail on an empty token before any fetch, run the page loop over a copy of
the prior snapshot, and classify any thrown fetch error via `staleSignal`.
`storedTok` is the KV value under `sync:<calendarId>`; `pages` is the
sequence of fetch outcomes the loop would observe. -/
def applyIncremental (parse : String → Int) (now : Int) (storedTok : Option String)
    (pages : List (Except String ListResponse)) (prev : Snapshot) :
    Except String IncResult :=
  let syncToken := storedTok.getD ""
  if syncToken = "" then Except.error "no syncToken"
  else
    match runPages parse now pages
        { nextEvents := prev.events, created := [], updated := [], deleted := [] }
        none with
    | Except.error e =>
        if staleSignal e then Except.error "syncGone" else Except.error e
    | Except.ok (st, tok) =>
        Except.ok
          { next := { events := st.nextEvents, updatedAt := now }
            created := st.created
            updated := st.updated
            deleted := st.deleted
            nextSyncToken := tok }

/-- `ChangeKind`. -/
inductive ChangeKind where
  | created
  | updated
  | deleted
deriving DecidableEq, Repr

/-- `ChangeEntry`; `parsedStart`/`parsedEnd` hold the `new Date(...)` values. -/
structure ChangeEntry where
  kind : ChangeKind
  current : NormEvent
  previous : Option NormEvent := none
  parsedStart : Int
  parsedEnd : Int
deriving DecidableEq, Repr

/-- `buildChangeEntries`: all creations, then all updates, then all deletions,
each group in input order. -/
def buildChangeEntries (parse : String → Int) (created : List NormEvent)
    (updated : List (NormEvent × NormEvent)) (deleted : List NormEvent) :
    List ChangeEntry :=
  created.map (fun item =>
    { kind := ChangeKind.created, current := item
      parsedStart := parse item.start, parsedEnd := parse item.«end» })
  ++ updated.map (fun item =>
    { kind := ChangeKind.updated, current := item.2, previous := some item.1
      parsedStart := parse item.2.start, parsedEnd := parse item.2.«end» })
  ++ deleted.map (fun item =>
    { kind := ChangeKind.deleted, current := item
      parsedStart := parse item.start, parsedEnd := parse item.«end» })

/-- `formatLine`, parametrized by the pure date renderers `formatDatetime`
(`fmtDT`) and `formatTime` (`fmtT`), which are string-to-string functions of
the stored ISO values. -/
def formatLine (fmtDT fmtT : String → String) (entry : ChangeEntry) : String :=
  let emoji := match entry.kind with
    | ChangeKind.created => "🆕"
    | ChangeKind.updated => "🔔"
    | ChangeKind.deleted => "🗑️"
  let label := match entry.kind with
    | ChangeKind.created => "追加"
    | ChangeKind.updated => "更新"
    | ChangeKind.deleted => "削除"
  match entry.kind, entry.previous with
  | ChangeKind.updated, some prev =>
      "- " ++ entry.current.summary ++ " " ++ emoji ++ " (" ++ label ++
        ")\n  - 変更前: " ++ fmtDT prev.start ++ " ~ " ++ fmtT prev.«end» ++
        "\n  - 変更後: " ++ fmtDT entry.current.start ++ " ~ " ++
        fmtT entry.current.«end»
  | _, _ =>
      "- " ++ entry.current.summary ++ " " ++ emoji ++ " (" ++ label ++
        ")\n  - " ++ fmtDT entry.current.start ++ " ~ " ++
        fmtT entry.current.«end»

/-- `formatChangeEntries`: newline-joined lines, `""` when empty. -/
def formatChangeEntries (fmtDT fmtT : String → String)
    (entries : List ChangeEntry) : String :=
  if entries.isEmpty then ""
  else String.intercalate "\n" (entries.map (formatLine fmtDT fmtT))

/-- `renderDiscordMessage`: the title is chosen by the kind of the first
entry; the body formats every entry. -/
def renderDiscordMessage (fmtDT fmtT : String → String)
    (entries : List ChangeEntry) : String × String :=
  match entries with
  | [] => ("Error: No entries to report", "")
  | e :: _ =>
      match e.kind with
      | ChangeKind.created =>
          ("カワイ部屋の予約が追加されました", formatChangeEntries fmtDT fmtT entries)
      | ChangeKind.updated =>
          ("カワイ部屋の予約が更新されました", formatChangeEntries fmtDT fmtT entries)
      | ChangeKind.deleted =>
          ("カワイ部屋の予約が削除されました", formatChangeEntries fmtDT fmtT entries)

/-- A Discord embed chunk: `{ description, color }` (title added later). -/
structure Embed where
  description : List Char
  color : Nat
deriving DecidableEq, Repr

/-- The fixed chunk limit of `splitEmbeds`. -/
def LIMIT : Nat := 4096

/-- Structural helper for `splitEmbeds`; the fuel is the input length, enough
because every iteration consumes at least one character. -/
def splitEmbedsAux : Nat → List Char → List Embed
  | _, [] => []
  | 0, _ :: _ => []
  | fuel + 1, c :: cs =>
      { description := (c :: cs).take LIMIT, color := 0x00aaFF } ::
        splitEmbedsAux fuel ((c :: cs).drop LIMIT)

/-- `splitEmbeds`: `for (let i = 0; i < desc.length; i += LIMIT)
out.push({ description: desc.slice(i, i + LIMIT), color: 0x00aaFF })`,
on the character sequence of the body. -/
def splitEmbeds (desc : List Char) : List Embed :=
  splitEmbedsAux desc.length desc

/-- `ChannelOBS`; `expiration` is epoch milliseconds. -/
structure ChannelOBS where
  channelId : String
  resourceId : String
  expiration : Option Int := none
deriving DecidableEq, Repr

/-- The JSON body `events.watch` answers with. -/
structure WatchResponse where
  id : String
  resourceId : String
  expiration : Option String := none
deriving DecidableEq, Repr

/-- The reuse test `saved?.expiration && saved.expiration - now > 5 * 60 * 1000`
(a numeric `expiration` of `0` is falsy in JS). -/
def watchReusable (saved : Option ChannelOBS) (now : Int) : Bool :=
  match saved with
  | none => false
  | some s =>
      match s.expiration with
      | none => false
      | some exp => exp != 0 && exp - now > 5 * 60 * 1000

/-- Build the `ChannelOBS` persisted after a watch call; `toNum` models the
JS `Number(...)` string conversion. -/
def mkChannelOBS (toNum : String → Int) (js : WatchResponse) : ChannelOBS :=
  { channelId := js.id, resourceId := js.resourceId
    expiration := js.expiration.map toNum }

/-- `ensureWatch`, as a pure function of its effectful inputs: the persisted
channel read from KV, `Date.now()`, the id `randomId()` would generate, and
the provider's response to an `events.watch` call.  It returns the channel
handed back to the caller, the list of channel ids passed to subscribe calls
issued (empty on reuse), and the value written back to KV (none on reuse). -/
def ensureWatch (toNum : String → Int) (saved : Option ChannelOBS) (now : Int)
    (freshId : String) (subscribe : String → WatchResponse) :
    ChannelOBS × List String × Option ChannelOBS :=
  match saved with
  | some s =>
      if watchReusable (some s) now then (s, [], none)
      else
        let js := subscribe freshId
        let obs := mkChannelOBS toNum js
        (obs, [freshId], some obs)
  | none =>
      let js := subscribe freshId
      let obs := mkChannelOBS toNum js
      (obs, [freshId], some obs)

/-- The `/hook` handler's persistence rule for the returned sync token:
`if (nextSyncToken) await env.OBS.put(SYNC_KEY(...), nextSyncToken)` —
the stored token is only overwritten by a truthy (present, non-empty) token. -/
def persistSyncToken (stored : Option String) (tok : Option String) :
    Option String :=
  match tok with
  | none => stored
  | some t => if t = "" then stored else some t

/-! ### Basic lemmas about the JS-object model -/

theorem EventMap.lookup_insert_self (m : EventMap) (k : String) (v : NormEvent) :
    (m.insert k v).lookup k = some v := by
  induction m with
  | nil => simp [EventMap.insert, EventMap.lookup]
  | cons p rest ih =>
      by_cases h : p.1 = k <;>
        simp [EventMap.insert, EventMap.lookup, h, ih]

theorem EventMap.lookup_erase_self (m : EventMap) (k : String) :
    (m.erase k).lookup k = none := by
  induction m with
  | nil => simp [EventMap.erase, EventMap.lookup]
  | cons p rest ih =>
      by_cases h : p.1 = k <;>
        simp [EventMap.erase, EventMap.lookup, h, ih]

theorem EventMap.erase_of_lookup_none (m : EventMap) (k : String)
    (h : m.lookup k = none) : m.erase k = m := by
  induction m with
  | nil => rfl
  | cons p rest ih =>
      by_cases hk : p.1 = k
      · simp [EventMap.lookup, hk] at h
      · simp [EventMap.lookup, hk] at h
        simp [EventMap.erase, hk, ih h]

/-- `processItem` never touches the `created` accumulator. -/
theorem processItem_created (parse : String → Int) (now : Int) (st : IncState)
    (it : RawEvent) : (processItem parse now st it).created = st.created := by
  unfold processItem
  repeat' split
  all_goals rfl

theorem foldl_processItem_created (parse : String → Int) (now : Int)
    (items : List RawEvent) (st : IncState) :
    (items.foldl (processItem parse now) st).created = st.created := by
  induction items generalizing st with
  | nil => rfl
  | cons it rest ih => simp [List.foldl, ih, processItem_created]

theorem runPages_created (parse : String → Int) (now : Int)
    (pages : List (Except String ListResponse)) (st : IncState)
    (tok : Option String) (st2 : IncState) (tok2 : Option String)
    (h : runPages parse now pages st tok = Except.ok (st2, tok2)) :
    st2.created = st.created := by
  induction pages generalizing st tok with
  | nil =>
      simp [runPages] at h
      simp [h.1]
  | cons p rest ih =>
      match p with
      | Except.error e => simp [runPages] at h
      | Except.ok resp =>
          simp only [runPages] at h
          rcases hp : resp.nextPageToken with _ | t
          · rw [hp] at h
            simp at h
            rw [← h.1, foldl_processItem_created]
          · rw [hp] at h
            simp at h
            rw [ih _ _ h, foldl_processItem_created]

/-! ### C1 — new ids are inserted but no created entry is ever emitted -/

/-- C1: a non-cancelled record whose normalized form is future and whose id is
new to the working snapshot is inserted into the snapshot, but the `created`
accumulator is untouched; moreover the `created` list of every successful
`applyIncremental` run is empty. -/
theorem incremental_insert_emits_no_created (parse : String → Int) (now : Int)
    (st : IncState) (it : RawEvent) (n : NormEvent)
    (hnc : it.status ≠ some "cancelled")
    (hn : normalizeItem it = some n)
    (hf : isFutureByEnd parse n now = true)
    (hnew : st.nextEvents.lookup n.id = none) :
    processItem parse now st it = { st with nextEvents := st.nextEvents.insert n.id n } ∧
    (processItem parse now st it).nextEvents.lookup n.id = some n ∧
    (processItem parse now st it).created = st.created ∧
    ∀ (parse2 : String → Int) (now2 : Int) (storedTok : Option String)
      (pages : List (Except String ListResponse)) (prev : Snapshot)
      (r : IncResult),
      applyIncremental parse2 now2 storedTok pages prev = Except.ok r →
      r.created = [] := by
  have hstep : processItem parse now st it =
      { st with nextEvents := st.nextEvents.insert n.id n } := by
    simp [processItem, if_neg hnc, hn, hnew, hf]
  refine ⟨hstep, ?_, ?_, ?_⟩
  · rw [hstep]
    exact EventMap.lookup_insert_self _ _ _
  · rw [hstep]
  · intro parse2 now2 storedTok pages prev r h
    unfold applyIncremental at h
    by_cases htok : storedTok.getD "" = ""
    · simp [htok] at h
    · simp only [htok, if_neg] at h
      rcases hrun : runPages parse2 now2 pages
          { nextEvents := prev.events, created := [], updated := [], deleted := [] }
          none with e | stk
      · rw [hrun] at h
        by_cases hs : staleSignal e <;> simp [hs] at h
      · rw [hrun] at h
        simp at h
        have := runPages_created parse2 now2 pages _ none stk.1 stk.2 hrun
        rw [← h]
        simpa using this

/-! ### Concrete fixtures used by witnesses -/

/-- A raw feed record for event `B`. -/
def sampleRaw : RawEvent :=
  { id := some "B", summary := some "Y", startDateTime := some "s"
    endDateTime := some "e" }

/-- Its normalized form. -/
def sampleNorm : NormEvent := ⟨"B", "Y", "s", "e"⟩

/-- A parse function under which every timestamp is `1`. -/
def pOne : String → Int := fun _ => 1

/-- The empty working state of a run starting from an empty snapshot. -/
def emptySt : IncState :=
  { nextEvents := [], created := [], updated := [], deleted := [] }

theorem incremental_insert_emits_no_created_witness :
    processItem pOne 0 emptySt sampleRaw =
      { emptySt with nextEvents := emptySt.nextEvents.insert sampleNorm.id sampleNorm } ∧
    (processItem pOne 0 emptySt sampleRaw).nextEvents.lookup sampleNorm.id =
      some sampleNorm ∧
    (processItem pOne 0 emptySt sampleRaw).created = emptySt.created :=
  have h := incremental_insert_emits_no_created pOne 0 emptySt sampleRaw sampleNorm
    (by decide) (by decide) (by decide) (by decide)
  ⟨h.1, h.2.1, h.2.2.1⟩

/-! ### C2 — cancellation of a present id -/

/-- C2: a `cancelled` record whose id is present in the working snapshot
removes the id (regardless of the stored event's future status) and emits a
`deleted` entry carrying the previously-stored value exactly when that value
still passes `isFutureByEnd`. -/
theorem incremental_cancelled_deletion (parse : String → Int) (now : Int)
    (st : IncState) (it : RawEvent) (i : String) (e : NormEvent)
    (hc : it.status = some "cancelled")
    (hid : it.id = some i)
    (hex : st.nextEvents.lookup i = some e) :
    processItem parse now st it =
      { st with
        nextEvents := st.nextEvents.erase i
        deleted :=
          if isFutureByEnd parse e now then st.deleted ++ [e] else st.deleted } ∧
    (processItem parse now st it).nextEvents.lookup i = none ∧
    (isFutureByEnd parse e now = true →
      (processItem parse now st it).deleted = st.deleted ++ [e]) := by
  have hstep : processItem parse now st it =
      { st with
        nextEvents := st.nextEvents.erase i
        deleted :=
          if isFutureByEnd parse e now then st.deleted ++ [e] else st.deleted } := by
    simp [processItem, hc, hid, hex]
  refine ⟨hstep, ?_, ?_⟩
  · rw [hstep]
    exact EventMap.lookup_erase_self _ _
  · intro hf
    rw [hstep]
    simp [hf]

theorem incremental_cancelled_deletion_witness :
    processItem pOne 0
        { emptySt with nextEvents := [("B", sampleNorm)] }
        { id := some "B", status := some "cancelled" } =
      { emptySt with
        nextEvents := EventMap.erase [("B", sampleNorm)] "B"
        deleted :=
          if isFutureByEnd pOne sampleNorm 0 then emptySt.deleted ++ [sampleNorm]
          else emptySt.deleted } ∧
    (processItem pOne 0 { emptySt with nextEvents := [("B", sampleNorm)] }
        { id := some "B", status := some "cancelled" }).nextEvents.lookup "B" =
      none ∧
    (isFutureByEnd pOne sampleNorm 0 = true →
      (processItem pOne 0 { emptySt with nextEvents := [("B", sampleNorm)] }
          { id := some "B", status := some "cancelled" }).deleted =
        emptySt.deleted ++ [sampleNorm]) :=
  incremental_cancelled_deletion pOne 0
    { emptySt with nextEvents := [("B", sampleNorm)] }
    { id := some "B", status := some "cancelled" } "B" sampleNorm
    (by decide) (by decide) (by decide)

/-! ### C3 — update classification for a present id -/

/-- C3: a non-cancelled future record whose id is already stored emits exactly
one `updated` entry carrying the old and new values and overwrites the stored
entry when `shallowChanged` holds; otherwise nothing is emitted and the state
is unchanged. -/
theorem incremental_update_classification (parse : String → Int) (now : Int)
    (st : IncState) (it : RawEvent) (n e : NormEvent)
    (hnc : it.status ≠ some "cancelled")
    (hn : normalizeItem it = some n)
    (hf : isFutureByEnd parse n now = true)
    (hex : st.nextEvents.lookup n.id = some e) :
    (shallowChanged e n = true →
      processItem parse now st it =
        { st with
          nextEvents := st.nextEvents.insert n.id n
          updated := st.updated ++ [(e, n)] } ∧
      (processItem parse now st it).nextEvents.lookup n.id = some n) ∧
    (shallowChanged e n = false → processItem parse now st it = st) := by
  constructor
  · intro hch
    have hstep : processItem parse now st it =
        { st with
          nextEvents := st.nextEvents.insert n.id n
          updated := st.updated ++ [(e, n)] } := by
      simp [processItem, if_neg hnc, hn, hex, hf, hch]
    refine ⟨hstep, ?_⟩
    rw [hstep]
    exact EventMap.lookup_insert_self _ _ _
  · intro hch
    simp [processItem, if_neg hnc, hn, hex, hf, hch]

theorem incremental_update_classification_witness :
    (shallowChanged ⟨"B", "old", "s", "e"⟩ sampleNorm = true →
      processItem pOne 0
          { emptySt with nextEvents := [("B", ⟨"B", "old", "s", "e"⟩)] }
          sampleRaw =
        { emptySt with
          nextEvents :=
            EventMap.insert [("B", ⟨"B", "old", "s", "e"⟩)] sampleNorm.id
              sampleNorm
          updated := emptySt.updated ++ [(⟨"B", "old", "s", "e"⟩, sampleNorm)] } ∧
      (processItem pOne 0
          { emptySt with nextEvents := [("B", ⟨"B", "old", "s", "e"⟩)] }
          sampleRaw).nextEvents.lookup sampleNorm.id = some sampleNorm) ∧
    (shallowChanged ⟨"B", "old", "s", "e"⟩ sampleNorm = false →
      processItem pOne 0
          { emptySt with nextEvents := [("B", ⟨"B", "old", "s", "e"⟩)] }
          sampleRaw =
        { emptySt with nextEvents := [("B", ⟨"B", "old", "s", "e"⟩)] }) :=
  incremental_update_classification pOne 0
    { emptySt with nextEvents := [("B", ⟨"B", "old", "s", "e"⟩)] }
    sampleRaw sampleNorm ⟨"B", "old", "s", "e"⟩
    (by decide) (by decide) (by decide) (by decide)

/-! ### C4 — silent retirement of no-longer-future records -/

/-- C4: a non-cancelled record whose normalized form fails `isFutureByEnd`
leaves the working snapshot without an entry for that id and emits no entry of
any kind. -/
theorem incremental_stale_retirement (parse : String → Int) (now : Int)
    (st : IncState) (it : RawEvent) (n : NormEvent)
    (hnc : it.status ≠ some "cancelled")
    (hn : normalizeItem it = some n)
    (hf : isFutureByEnd parse n now = false) :
    (processItem parse now st it).nextEvents = st.nextEvents.erase n.id ∧
    (processItem parse now st it).nextEvents.lookup n.id = none ∧
    (processItem parse now st it).created = st.created ∧
    (processItem parse now st it).updated = st.updated ∧
    (processItem parse now st it).deleted = st.deleted := by
  rcases hex : st.nextEvents.lookup n.id with _ | e
  · have hstep : processItem parse now st it = st := by
      simp [processItem, if_neg hnc, hn, hex, hf]
    rw [hstep, EventMap.erase_of_lookup_none _ _ hex]
    exact ⟨rfl, hex, rfl, rfl, rfl⟩
  · have hstep : processItem parse now st it =
        { st with nextEvents := st.nextEvents.erase n.id } := by
      simp [processItem, if_neg hnc, hn, hex, hf]
    rw [hstep]
    exact ⟨rfl, EventMap.lookup_erase_self _ _, rfl, rfl, rfl⟩

theorem incremental_stale_retirement_witness :
    (processItem (fun _ => 0) 0
        { emptySt with nextEvents := [("B", sampleNorm)] }
        sampleRaw).nextEvents =
      EventMap.erase [("B", sampleNorm)] sampleNorm.id ∧
    (processItem (fun _ => 0) 0
        { emptySt with nextEvents := [("B", sampleNorm)] }
        sampleRaw).nextEvents.lookup sampleNorm.id = none ∧
    (processItem (fun _ => 0) 0
        { emptySt with nextEvents := [("B", sampleNorm)] }
        sampleRaw).created = emptySt.created ∧
    (processItem (fun _ => 0) 0
        { emptySt with nextEvents := [("B", sampleNorm)] }
        sampleRaw).updated = emptySt.updated ∧
    (processItem (fun _ => 0) 0
        { emptySt with nextEvents := [("B", sampleNorm)] }
        sampleRaw).deleted = emptySt.deleted :=
  incremental_stale_retirement (fun _ => 0) 0
    { emptySt with nextEvents := [("B", sampleNorm)] }
    sampleRaw sampleNorm (by decide) (by decide) (by decide)

/-! ### C5 — the returned continuation token -/

/-- The token the pagination loop settles on, phrased over the responses the
loop consumes: the last *present* `nextSyncToken` across consumed pages, the
accumulator if none is issued.  Consumption stops at the first page without a
`nextPageToken`. -/
def lastIssuedToken : List ListResponse → Option String → Option String
  | [], acc => acc
  | p :: rest, acc =>
      let acc1 := match p.nextSyncToken with
        | some t => some t
        | none => acc
      match p.nextPageToken with
      | none => acc1
      | some _ => lastIssuedToken rest acc1

theorem runPages_token (parse : String → Int) (now : Int)
    (pages : List ListResponse) (st : IncState) (tok : Option String)
    (st2 : IncState) (tok2 : Option String)
    (h : runPages parse now (pages.map Except.ok) st tok = Except.ok (st2, tok2)) :
    tok2 = lastIssuedToken pages tok := by
  induction pages generalizing st tok with
  | nil =>
      simp [runPages] at h
      simp [lastIssuedToken, h.2]
  | cons p rest ih =>
      simp only [List.map, runPages] at h
      rcases hp : p.nextPageToken with _ | t
      · rw [hp] at h
        simp at h
        simp [lastIssuedToken, hp, h.2]
      · rw [hp] at h
        simp only [lastIssuedToken, hp]
        exact ih _ _ h

theorem lastIssuedToken_of_no_tokens (pages : List ListResponse)
    (acc : Option String) (h : ∀ p ∈ pages, p.nextSyncToken = none) :
    lastIssuedToken pages acc = acc := by
  induction pages generalizing acc with
  | nil => rfl
  | cons p rest ih =>
      have hp := h p (by simp)
      rcases hq : p.nextPageToken with _ | t
      · simp [lastIssuedToken, hp, hq]
      · simp only [lastIssuedToken, hp, hq]
        exact ih acc (fun q hq2 => h q (by simp [hq2]))

/-- C5 counterexample: the claim says the returned continuation token falls
back to the token passed in when no page issues one, and that it is the last
*non-empty* token seen.  Both parts fail on the code: with the stored token
`"T"` and a single tokenless page, `applyIncremental` returns *no* token
(`none`, not `some "T"`); and a final page carrying the empty-string token
makes it return `some ""` even though the last non-empty token seen was
`"A"`. -/
theorem syncToken_return_counterexample :
    (applyIncremental pOne 0 (some "T")
        [Except.ok { items := [], nextPageToken := none, nextSyncToken := none }]
        { events := [], updatedAt := 0 }).map IncResult.nextSyncToken =
      Except.ok none ∧
    (none : Option String) ≠ some "T" ∧
    (applyIncremental pOne 0 (some "T")
        [Except.ok { items := [], nextPageToken := some "p", nextSyncToken := some "A" },
         Except.ok { items := [], nextPageToken := none, nextSyncToken := some "" }]
        { events := [], updatedAt := 0 }).map IncResult.nextSyncToken =
      Except.ok (some "") ∧
    ("" : String) ≠ "A" := by
  refine ⟨by rfl, by simp, by rfl, by simp⟩

/-- C5 amended: the token returned by a successful `applyIncremental` run is
the last `nextSyncToken` *present* on any consumed page, and `none` when no
page issues one; the `/hook` caller only persists a truthy returned token, so
it is at the persistence layer that the stored token falls back to the token
that was passed in. -/
theorem syncToken_last_present_and_caller_fallback (parse : String → Int)
    (now : Int) (storedTok : Option String) (pages : List ListResponse)
    (prev : Snapshot) (r : IncResult)
    (h : applyIncremental parse now storedTok (pages.map Except.ok) prev =
      Except.ok r) :
    r.nextSyncToken = lastIssuedToken pages none ∧
    ((∀ p ∈ pages, p.nextSyncToken = none) →
      r.nextSyncToken = none ∧
      persistSyncToken storedTok r.nextSyncToken = storedTok) := by
  have htok : r.nextSyncToken = lastIssuedToken pages none := by
    unfold applyIncremental at h
    by_cases htok : storedTok.getD "" = ""
    · simp [htok] at h
    · simp only [htok, if_neg] at h
      rcases hrun : runPages parse now (pages.map Except.ok)
          { nextEvents := prev.events, created := [], updated := [], deleted := [] }
          none with e | stk
      · rw [hrun] at h
        by_cases hs : staleSignal e <;> simp [hs] at h
      · rw [hrun] at h
        simp at h
        rw [← h]
        exact runPages_token parse now pages _ none stk.1 stk.2 hrun
  refine ⟨htok, fun hnone => ?_⟩
  have : r.nextSyncToken = none := by
    rw [htok]
    exact lastIssuedToken_of_no_tokens pages none hnone
  exact ⟨this, by rw [this]; rfl⟩

theorem syncToken_last_present_witness :
    ({ next := { events := [], updatedAt := 0 }, created := [], updated := []
       deleted := [], nextSyncToken := none } : IncResult).nextSyncToken =
      lastIssuedToken
        [{ items := [], nextPageToken := none, nextSyncToken := none }] none ∧
    ({ next := { events := [], updatedAt := 0 }, created := [], updated := []
       deleted := [], nextSyncToken := none } : IncResult).nextSyncToken = none ∧
    persistSyncToken (some "T")
      ({ next := { events := [], updatedAt := 0 }, created := [], updated := []
         deleted := [], nextSyncToken := none } : IncResult).nextSyncToken =
      some "T" :=
  have hmain := syncToken_last_present_and_caller_fallback pOne 0 (some "T")
    [{ items := [], nextPageToken := none, nextSyncToken := none }]
    { events := [], updatedAt := 0 }
    { next := { events := [], updatedAt := 0 }, created := [], updated := []
      deleted := [], nextSyncToken := none } (by rfl)
  have hrest := hmain.2 (by decide)
  ⟨hmain.1, hrest.1, hrest.2⟩

/-! ### C6 — the three failure outcomes of `applyIncremental` -/

/-- C6: with an empty (or absent) stored token, `applyIncremental` fails with
the local precondition error `"no syncToken"` no matter what the provider
would answer — the check runs before any fetch, so the precondition failure is
never routed through the stale-token classification even though its own text
would match it; with a non-empty token, a page-fetch failure matching the
provider's gone/invalid-token signal becomes the distinguished `"syncGone"`
error, and any other fetch failure propagates unchanged. -/
theorem incremental_error_taxonomy (parse : String → Int) (now : Int)
    (pages : List (Except String ListResponse)) (prev : Snapshot) :
    (∀ storedTok : Option String, storedTok.getD "" = "" →
      applyIncremental parse now storedTok pages prev =
        Except.error "no syncToken") ∧
    (∀ tok : String, tok ≠ "" → ∀ e : String,
      runPages parse now pages
          { nextEvents := prev.events, created := [], updated := [], deleted := [] }
          none = Except.error e →
      (staleSignal e = true →
        applyIncremental parse now (some tok) pages prev =
          Except.error "syncGone") ∧
      (staleSignal e = false →
        applyIncremental parse now (some tok) pages prev = Except.error e)) ∧
    staleSignal "no syncToken" = true := by
  refine ⟨?_, ?_, by decide⟩
  · intro storedTok htok
    simp [applyIncremental, htok]
  · intro tok htok e hrun
    constructor
    · intro hs
      simp [applyIncremental, htok, hrun, hs]
    · intro hs
      simp [applyIncremental, htok, hrun, hs]

theorem incremental_error_taxonomy_witness :
    applyIncremental pOne 0 none [Except.error "events.list failed: 410 gone"]
        { events := [], updatedAt := 0 } = Except.error "no syncToken" ∧
    applyIncremental pOne 0 (some "T")
        [Except.error "events.list failed: 410 gone"]
        { events := [], updatedAt := 0 } = Except.error "syncGone" ∧
    applyIncremental pOne 0 (some "T") [Except.error "events.list failed: 500"]
        { events := [], updatedAt := 0 } = Except.error "events.list failed: 500" :=
  have h1 := incremental_error_taxonomy pOne 0
    [Except.error "events.list failed: 410 gone"] { events := [], updatedAt := 0 }
  have h2 := incremental_error_taxonomy pOne 0
    [Except.error "events.list failed: 500"] { events := [], updatedAt := 0 }
  ⟨h1.1 none (by decide),
    (h1.2.1 "T" (by decide) "events.list failed: 410 gone" (by rfl)).1 (by decide),
    (h2.2.1 "T" (by decide) "events.list failed: 500" (by rfl)).2 (by decide)⟩

/-! ### C7 — chunking of long report bodies -/

/-- The boundary between two adjacent chunks falls on a line boundary: the
first chunk ends with a newline or the second begins with one. -/
def lineBoundaryOk (a b : Embed) : Bool :=
  a.description.getLast? == some '\n' || b.description.head? == some '\n'

/-- Every boundary between adjacent chunks falls on a line boundary — the
spec's "split on message boundaries, never mid-line". -/
def chunksRespectLines : List Embed → Bool
  | a :: b :: rest => lineBoundaryOk a b && chunksRespectLines (b :: rest)
  | _ => true

theorem splitEmbedsAux_nil (fuel : Nat) : splitEmbedsAux fuel [] = [] := by
  cases fuel <;> rfl

theorem splitEmbedsAux_cons (fuel : Nat) (c : Char) (cs : List Char)
    (h : fuel ≠ 0) :
    splitEmbedsAux fuel (c :: cs) =
      { description := (c :: cs).take LIMIT, color := 0x00aaFF } ::
        splitEmbedsAux (fuel - 1) ((c :: cs).drop LIMIT) := by
  cases fuel with
  | zero => exact absurd rfl h
  | succ f => rfl

theorem getLast?_replicate (n : Nat) (c : Char) :
    (List.replicate (n + 1) c).getLast? = some c := by
  induction n with
  | zero => rfl
  | succ m ih =>
      rw [List.replicate_succ, List.replicate_succ, List.getLast?_cons_cons,
        ← List.replicate_succ]
      exact ih

/-- The two chunks `splitEmbeds` yields for a 5000-character body. -/
theorem splitEmbeds_5000 :
    splitEmbeds (List.replicate 5000 'a') =
      [{ description := List.replicate 4096 'a', color := 0x00aaFF },
       { description := List.replicate 904 'a', color := 0x00aaFF }] := by
  have e1 : List.replicate 5000 'a' = 'a' :: List.replicate 4999 'a' := rfl
  have e2 : List.replicate 904 'a' = 'a' :: List.replicate 903 'a' := rfl
  have t1 : List.take LIMIT (List.replicate 5000 'a') = List.replicate 4096 'a' := by
    rw [List.take_replicate, show LIMIT ⊓ 5000 = 4096 by decide]
  have d1 : List.drop LIMIT (List.replicate 5000 'a') = List.replicate 904 'a' := by
    rw [List.drop_replicate, show 5000 - LIMIT = 904 by decide]
  have t2 : List.take LIMIT (List.replicate 904 'a') = List.replicate 904 'a' := by
    rw [List.take_replicate, show LIMIT ⊓ 904 = 904 by decide]
  have d2 : List.drop LIMIT (List.replicate 904 'a') = [] := by
    rw [List.drop_replicate, show 904 - LIMIT = 0 by decide]
    rfl
  show splitEmbedsAux (List.replicate 5000 'a').length (List.replicate 5000 'a') = _
  rw [List.length_replicate]
  conv_lhs => rw [e1]
  rw [splitEmbedsAux_cons 5000 _ _ (by norm_num), ← e1, t1, d1,
    show (5000 : Nat) - 1 = 4999 from rfl]
  conv_lhs => rw [e2]
  rw [splitEmbedsAux_cons 4999 _ _ (by norm_num), ← e2, t2, d2,
    splitEmbedsAux_nil]

/-- C7 counterexample: `splitEmbeds` slices at fixed 4096-character offsets,
so a single 5000-character line (no newline anywhere) is cut mid-line into a
4096-character chunk and a 904-character chunk — the chunk boundary does not
fall on any message boundary. -/
theorem splitEmbeds_midline_counterexample :
    (splitEmbeds (List.replicate 5000 'a')).length = 2 ∧
    '\n' ∉ List.replicate 5000 'a' ∧
    chunksRespectLines (splitEmbeds (List.replicate 5000 'a')) = false := by
  have hlast : (List.replicate 4096 'a').getLast? = some 'a' :=
    getLast?_replicate 4095 'a'
  have hhead : (List.replicate 904 'a').head? = some 'a' := rfl
  refine ⟨by rw [splitEmbeds_5000]; rfl, ?_, ?_⟩
  · intro h
    rw [List.mem_replicate] at h
    exact absurd h.2 (by decide)
  · rw [splitEmbeds_5000]
    show (lineBoundaryOk
        { description := List.replicate 4096 'a', color := 0x00aaFF }
        { description := List.replicate 904 'a', color := 0x00aaFF } &&
      chunksRespectLines
        [{ description := List.replicate 904 'a', color := 0x00aaFF }]) = false
    rw [show chunksRespectLines
        [{ description := List.replicate 904 'a', color := 0x00aaFF }] = true
      from rfl]
    unfold lineBoundaryOk
    rw [hlast, hhead]
    rfl

theorem splitEmbedsAux_spec (fuel : Nat) (desc : List Char)
    (h : desc.length ≤ fuel) :
    (∀ emb ∈ splitEmbedsAux fuel desc,
      emb.description.length ≤ LIMIT ∧ emb.color = 0x00aaFF) ∧
    ((splitEmbedsAux fuel desc).map Embed.description).flatten = desc := by
  induction fuel generalizing desc with
  | zero =>
      cases desc with
      | nil => simp [splitEmbedsAux]
      | cons c cs => simp at h
  | succ fuel ih =>
      cases desc with
      | nil => simp [splitEmbedsAux]
      | cons c cs =>
          have hdrop : ((c :: cs).drop LIMIT).length ≤ fuel := by
            simp only [List.length_drop, LIMIT]
            simp only [List.length_cons] at h ⊢
            omega
          have hrest := ih ((c :: cs).drop LIMIT) hdrop
          constructor
          · intro emb hemb
            simp only [splitEmbedsAux, List.mem_cons] at hemb
            rcases hemb with h1 | h2
            · subst h1
              refine ⟨?_, rfl⟩
              simp [List.length_take]
            · exact hrest.1 emb h2
          · simp only [splitEmbedsAux, List.map, List.flatten_cons]
            rw [hrest.2]
            exact List.take_append_drop _ _

/-- C7 amended: the chunking step bounds every chunk by 4096 characters and
chunks concatenate back to the whole body (it slices at fixed offsets), but
chunk boundaries do not in general fall on line boundaries. -/
theorem splitEmbeds_chunk_bound (desc : List Char) :
    (∀ emb ∈ splitEmbeds desc, emb.description.length ≤ 4096) ∧
    ((splitEmbeds desc).map Embed.description).flatten = desc := by
  have h := splitEmbedsAux_spec desc.length desc (le_refl _)
  exact ⟨fun emb hemb => (h.1 emb hemb).1, h.2⟩

/-! ### C9 — watch-channel reuse and renewal -/

/-- C9: with a persisted channel whose expiration is more than five minutes
away, `ensureWatch` returns it unchanged, issues no subscribe call and writes
nothing back — so two calls inside the margin return the identical channel;
with no persisted channel, no expiration, or an expiration inside the margin,
it issues exactly one subscribe call carrying the freshly generated channel
id and persists and returns the channel built from the provider's answer. -/
theorem ensureWatch_reuse_and_renew (toNum : String → Int)
    (saved : Option ChannelOBS) (now : Int) (freshId : String)
    (subscribe : String → WatchResponse) (s : ChannelOBS) (exp : Int) :
    (saved = some s → s.expiration = some exp → 0 ≤ now →
      exp - now > 5 * 60 * 1000 →
      ensureWatch toNum saved now freshId subscribe = (s, [], none) ∧
      ∀ (now2 : Int) (freshId2 : String) (subscribe2 : String → WatchResponse),
        0 ≤ now2 → exp - now2 > 5 * 60 * 1000 →
        (ensureWatch toNum saved now2 freshId2 subscribe2).1 =
          (ensureWatch toNum saved now freshId subscribe).1) ∧
    ((saved = none ∨ (saved = some s ∧ s.expiration = none) ∨
        (saved = some s ∧ s.expiration = some exp ∧
          exp - now ≤ 5 * 60 * 1000)) →
      ensureWatch toNum saved now freshId subscribe =
        (mkChannelOBS toNum (subscribe freshId), [freshId],
          some (mkChannelOBS toNum (subscribe freshId)))) := by
  constructor
  · rintro rfl he hnow hm
    have hexp0 : exp ≠ 0 := by omega
    have hr : watchReusable (some s) now = true := by
      simp [watchReusable, he, hexp0]
      omega
    refine ⟨by simp [ensureWatch, hr], ?_⟩
    intro now2 freshId2 subscribe2 hnow2 hm2
    have hexp02 : exp ≠ 0 := by omega
    have hr2 : watchReusable (some s) now2 = true := by
      simp [watchReusable, he, hexp02]
      omega
    simp [ensureWatch, hr, hr2]
  · rintro (rfl | ⟨rfl, he⟩ | ⟨rfl, he, hm⟩)
    · rfl
    · simp [ensureWatch, watchReusable, he]
    · have hr : watchReusable (some s) now = false := by
        simp [watchReusable, he]
        intro _
        omega
      simp [ensureWatch, hr]

theorem ensureWatch_reuse_and_renew_witness :
    ensureWatch (fun _ => 0) (some ⟨"c", "r", some 10000000⟩) 0 "f"
        (fun i => ⟨i, "res2", none⟩) =
      (⟨"c", "r", some 10000000⟩, [], none) ∧
    ensureWatch (fun _ => 0) none 0 "f" (fun i => ⟨i, "res2", none⟩) =
      (mkChannelOBS (fun _ => 0) ⟨"f", "res2", none⟩, ["f"],
        some (mkChannelOBS (fun _ => 0) ⟨"f", "res2", none⟩)) :=
  ⟨((ensureWatch_reuse_and_renew (fun _ => 0) (some ⟨"c", "r", some 10000000⟩)
      0 "f" (fun i => ⟨i, "res2", none⟩) ⟨"c", "r", some 10000000⟩
      10000000).1 rfl rfl (by decide) (by decide)).1,
    (ensureWatch_reuse_and_renew (fun _ => 0) none 0 "f"
      (fun i => ⟨i, "res2", none⟩) ⟨"c", "r", some 10000000⟩ 0).2
      (Or.inl rfl)⟩

/-! ### C10 — the report title comes from the first entry only -/

/-- C10: for a non-empty entry list the rendered title depends only on the
kind of the first entry while the body formats every entry; with the
created-updated-deleted ordering of `buildChangeEntries`, a diff holding both
updates and deletions is titled as an update report, yet each deletion's line
still appears among the body's lines. -/
theorem render_title_first_kind (fmtDT fmtT : String → String)
    (parse : String → Int) (updated : List (NormEvent × NormEvent))
    (deleted : List NormEvent)
    (hu : updated ≠ []) :
    (renderDiscordMessage fmtDT fmtT
        (buildChangeEntries parse [] updated deleted)).1 =
      "カワイ部屋の予約が更新されました" ∧
    (renderDiscordMessage fmtDT fmtT
        (buildChangeEntries parse [] updated deleted)).2 =
      String.intercalate "\n"
        ((buildChangeEntries parse [] updated deleted).map
          (formatLine fmtDT fmtT)) ∧
    (∀ d ∈ deleted,
      formatLine fmtDT fmtT
          { kind := ChangeKind.deleted, current := d
            parsedStart := parse d.start, parsedEnd := parse d.«end» } ∈
        (buildChangeEntries parse [] updated deleted).map
          (formatLine fmtDT fmtT)) ∧
    (∀ entries2 : List ChangeEntry, entries2 ≠ [] →
      Option.map ChangeEntry.kind entries2.head? =
        Option.map ChangeEntry.kind
          (buildChangeEntries parse [] updated deleted).head? →
      (renderDiscordMessage fmtDT fmtT entries2).1 =
        (renderDiscordMessage fmtDT fmtT
          (buildChangeEntries parse [] updated deleted)).1) := by
  rcases updated with _ | ⟨u, us⟩
  · exact absurd rfl hu
  · refine ⟨rfl, rfl, ?_, ?_⟩
    · intro d hd
      apply List.mem_map_of_mem
      refine List.mem_append.2 (Or.inr ?_)
      exact List.mem_map_of_mem _ hd
    · rintro (_ | ⟨e2, rest2⟩) hne2 hk
      · exact absurd rfl hne2
      · rcases e2 with ⟨k2, c2, p2, ps2, pe2⟩
        have hk2 : k2 = ChangeKind.updated := by
          simpa [buildChangeEntries] using hk
        subst hk2
        rfl

theorem render_title_first_kind_witness :
    (renderDiscordMessage (fun x => x) (fun x => x)
        (buildChangeEntries pOne []
          [(⟨"B", "old", "s", "e"⟩, sampleNorm)] [⟨"D", "Z", "s", "e"⟩])).1 =
      "カワイ部屋の予約が更新されました" ∧
    formatLine (fun x => x) (fun x => x)
        { kind := ChangeKind.deleted, current := ⟨"D", "Z", "s", "e"⟩
          parsedStart := pOne "s", parsedEnd := pOne "e" } ∈
      (buildChangeEntries pOne []
        [(⟨"B", "old", "s", "e"⟩, sampleNorm)] [⟨"D", "Z", "s", "e"⟩]).map
        (formatLine (fun x => x) (fun x => x)) :=
  have h := render_title_first_kind (fun x => x) (fun x => x) pOne
    [(⟨"B", "old", "s", "e"⟩, sampleNorm)] [⟨"D", "Z", "s", "e"⟩] (by simp)
  ⟨h.1, h.2.2.1 ⟨"D", "Z", "s", "e"⟩ (by simp)⟩

/-! ### C8 — duplicate delivery of a page does not accumulate changes -/

/-- Well-formedness of a snapshot's event map: every stored event sits under
its own id (the code only ever writes `nextEvents[n.id] = n`). -/
def WFMap (m : EventMap) : Prop := ∀ p ∈ m, p.2.id = p.1

theorem EventMap.lookup_insert (m : EventMap) (i k : String) (v : NormEvent) :
    (m.insert i v).lookup k = if i = k then some v else m.lookup k := by
  induction m with
  | nil =>
      by_cases h : i = k <;> simp [EventMap.insert, EventMap.lookup, h]
  | cons p rest ih =>
      by_cases h1 : p.1 = i
      · by_cases h2 : i = k
        · simp [EventMap.insert, EventMap.lookup, h1, h2]
        · have h3 : p.1 ≠ k := by rw [h1]; exact h2
          simp [EventMap.insert, EventMap.lookup, h1, h2, h3]
      · by_cases h2 : p.1 = k
        · have h4 : i ≠ k := fun h => h1 (h2.trans h.symm)
          have h5 : ¬(k = i) := fun h => h4 h.symm
          simp [EventMap.insert, EventMap.lookup, h1, h2, h4, h5]
        · simp [EventMap.insert, EventMap.lookup, h1, h2, ih]

theorem EventMap.lookup_erase (m : EventMap) (i k : String) :
    (m.erase i).lookup k = if i = k then none else m.lookup k := by
  induction m with
  | nil => by_cases h : i = k <;> simp [EventMap.erase, EventMap.lookup, h]
  | cons p rest ih =>
      by_cases h1 : p.1 = i
      · rw [EventMap.erase, if_pos h1, ih]
        by_cases h2 : i = k
        · simp [h2]
        · have h3 : p.1 ≠ k := by rw [h1]; exact h2
          simp [EventMap.lookup, h2, h3]
      · by_cases h2 : p.1 = k
        · have h4 : i ≠ k := fun h => h1 (h2.trans h.symm)
          have h5 : ¬(k = i) := fun h => h4 h.symm
          simp [EventMap.erase, EventMap.lookup, h1, h2, h4, h5]
        · simp [EventMap.erase, EventMap.lookup, h1, h2, ih]

theorem WFMap.lookup_id {m : EventMap} (hwf : WFMap m) {k : String}
    {e : NormEvent} (h : m.lookup k = some e) : e.id = k := by
  induction m with
  | nil => simp [EventMap.lookup] at h
  | cons p rest ih =>
      rcases hk : decide (p.1 = k) with _ | _
      · have hne : p.1 ≠ k := of_decide_eq_false hk
        rw [EventMap.lookup, if_neg hne] at h
        exact ih (fun q hq => hwf q (List.mem_cons_of_mem _ hq)) h
      · have heq : p.1 = k := of_decide_eq_true hk
        rw [EventMap.lookup, if_pos heq] at h
        have := hwf p (List.mem_cons_self _ _)
        rw [← heq, ← this]
        injection h with h2
        rw [h2]

theorem WFMap.insert {m : EventMap} (hwf : WFMap m) (v : NormEvent) :
    WFMap (m.insert v.id v) := by
  induction m with
  | nil =>
      intro p hp
      simp [EventMap.insert] at hp
      simp [hp]
  | cons q rest ih =>
      intro p hp
      by_cases h1 : q.1 = v.id
      · simp only [EventMap.insert, if_pos h1, List.mem_cons] at hp
        rcases hp with hp | hp
        · simp [hp]
        · exact hwf p (List.mem_cons_of_mem _ hp)
      · simp only [EventMap.insert, if_neg h1, List.mem_cons] at hp
        rcases hp with hp | hp
        · exact hwf p (by simp [hp])
        · exact ih (fun q2 hq2 => hwf q2 (List.mem_cons_of_mem _ hq2)) p hp

theorem WFMap.erase {m : EventMap} (hwf : WFMap m) (k : String) :
    WFMap (m.erase k) := by
  induction m with
  | nil => intro p hp; simp [EventMap.erase] at hp
  | cons q rest ih =>
      intro p hp
      by_cases h1 : q.1 = k
      · rw [EventMap.erase, if_pos h1] at hp
        exact ih (fun q2 hq2 => hwf q2 (List.mem_cons_of_mem _ hq2)) p hp
      · rw [EventMap.erase, if_neg h1] at hp
        rcases List.mem_cons.1 hp with hp | hp
        · exact hwf p (by simp [hp])
        · exact ih (fun q2 hq2 => hwf q2 (List.mem_cons_of_mem _ hq2)) p hp

/-- The effect of one raw record on the value stored under key `k`:
`none` for "leaves the key alone", `some v` for "forces the key to `v`". -/
def keyEffect (parse : String → Int) (now : Int) (k : String) (it : RawEvent) :
    Option (Option NormEvent) :=
  if it.status = some "cancelled" then
    match it.id with
    | none => none
    | some i => if i = k then some none else none
  else
    match normalizeItem it with
    | none => none
    | some n =>
        if n.id = k then
          if isFutureByEnd parse n now then some (some n) else some none
        else none

theorem lookup_processItem (parse : String → Int) (now : Int) (st : IncState)
    (it : RawEvent) (k : String) (hwf : WFMap st.nextEvents) :
    (processItem parse now st it).nextEvents.lookup k =
      (keyEffect parse now k it).getD (st.nextEvents.lookup k) := by
  by_cases hc : it.status = some "cancelled"
  · rcases hid : it.id with _ | i
    · simp [processItem, keyEffect, hc, hid]
    · rcases hex : st.nextEvents.lookup i with _ | e
      · by_cases hik : i = k
        · subst hik
          simp [processItem, keyEffect, hc, hid, hex]
        · simp [processItem, keyEffect, hc, hid, hex, hik]
      · by_cases hik : i = k
        · subst hik
          simp [processItem, keyEffect, hc, hid, hex,
            EventMap.lookup_erase]
        · simp [processItem, keyEffect, hc, hid, hex, hik,
            EventMap.lookup_erase]
  · rcases hn : normalizeItem it with _ | n
    · simp [processItem, keyEffect, hc, hn]
    · rcases hex : st.nextEvents.lookup n.id with _ | e
      · by_cases hf : isFutureByEnd parse n now
        · by_cases hik : n.id = k
          · subst hik
            simp [processItem, keyEffect, hc, hn, hex, hf,
              EventMap.lookup_insert]
          · simp [processItem, keyEffect, hc, hn, hex, hf, hik,
              EventMap.lookup_insert]
        · by_cases hik : n.id = k
          · subst hik
            simp [processItem, keyEffect, hc, hn, hex, hf]
          · simp [processItem, keyEffect, hc, hn, hex, hf, hik]
      · by_cases hf : isFutureByEnd parse n now
        · by_cases hch : shallowChanged e n
          · by_cases hik : n.id = k
            · subst hik
              simp [processItem, keyEffect, hc, hn, hex, hf, hch,
                EventMap.lookup_insert]
            · simp [processItem, keyEffect, hc, hn, hex, hf, hch, hik,
                EventMap.lookup_insert]
          · have hen : e = n := by
              have hid2 : e.id = n.id := hwf.lookup_id hex
              have hch2 : (e.summary = n.summary ∧ e.start = n.start) ∧
                  e.«end» = n.«end» := by
                simpa [shallowChanged] using hch
              cases e
              cases n
              simp_all
            by_cases hik : n.id = k
            · subst hik
              have hnn : shallowChanged n n = false := by
                simp [shallowChanged]
              simp [processItem, keyEffect, hc, hn, hf, hex, hnn, hen]
            · simp [processItem, keyEffect, hc, hn, hf, hch, hex, hik]
        · by_cases hik : n.id = k
          · subst hik
            simp [processItem, keyEffect, hc, hn, hex, hf,
              EventMap.lookup_erase]
          · simp [processItem, keyEffect, hc, hn, hex, hf, hik,
              EventMap.lookup_erase]

theorem WFMap.processItem (parse : String → Int) (now : Int) (st : IncState)
    (it : RawEvent) (hwf : WFMap st.nextEvents) :
    WFMap (GCal.processItem parse now st it).nextEvents := by
  unfold GCal.processItem
  repeat' split
  all_goals first
    | exact hwf
    | exact hwf.insert _
    | exact hwf.erase _

theorem WFMap.foldl (parse : String → Int) (now : Int) (items : List RawEvent)
    (st : IncState) (hwf : WFMap st.nextEvents) :
    WFMap (items.foldl (GCal.processItem parse now) st).nextEvents := by
  induction items generalizing st with
  | nil => exact hwf
  | cons it rest ih => exact ih _ (hwf.processItem parse now st it)

/-- Fold the per-key effects of a record list over a starting value. -/
def applyEffs (effs : List (Option (Option NormEvent)))
    (y : Option NormEvent) : Option NormEvent :=
  effs.foldl (fun acc e => e.getD acc) y

theorem lookup_foldl_processItem (parse : String → Int) (now : Int)
    (items : List RawEvent) (st : IncState) (k : String)
    (hwf : WFMap st.nextEvents) :
    (items.foldl (processItem parse now) st).nextEvents.lookup k =
      applyEffs (items.map (keyEffect parse now k)) (st.nextEvents.lookup k) := by
  induction items generalizing st with
  | nil => rfl
  | cons it rest ih =>
      show (rest.foldl (processItem parse now) (processItem parse now st it)).nextEvents.lookup k = _
      rw [ih (processItem parse now st it) (hwf.processItem parse now st it)]
      rw [lookup_processItem parse now st it k hwf]
      rfl

theorem applyEffs_const_or_id (effs : List (Option (Option NormEvent))) :
    (∀ y, applyEffs effs y = y) ∨
    (∀ y z, applyEffs effs y = applyEffs effs z) := by
  induction effs with
  | nil => exact Or.inl fun y => rfl
  | cons e rest ih =>
      rcases ih with hid | hconst
      · cases e with
        | none => exact Or.inl fun y => hid y
        | some v => exact Or.inr fun y z => rfl
      · exact Or.inr fun y z => by
          show applyEffs rest (e.getD y) = applyEffs rest (e.getD z)
          exact hconst _ _

theorem applyEffs_idem (effs : List (Option (Option NormEvent)))
    (y : Option NormEvent) :
    applyEffs effs (applyEffs effs y) = applyEffs effs y := by
  rcases applyEffs_const_or_id effs with hid | hconst
  · exact hid _
  · exact hconst _ _

/-- The event-map component of running one page's items against a snapshot. -/
def applyPageEvents (parse : String → Int) (now : Int) (items : List RawEvent)
    (m : EventMap) : EventMap :=
  (items.foldl (processItem parse now)
    { nextEvents := m, created := [], updated := [], deleted := [] }).nextEvents

/-- C8: re-applying the same incremental page (same records, same `now`) to
the snapshot produced by a first application leaves the event map unchanged
key for key — simulated duplicate delivery does not accumulate changes (the
run is a pure function, so two applications started from the same snapshot
trivially agree as well, while each may emit its `updated` entries anew). -/
theorem applyPage_idempotent (parse : String → Int) (now : Int)
    (items : List RawEvent) (m : EventMap) (hwf : WFMap m) :
    ∀ k, (applyPageEvents parse now items
        (applyPageEvents parse now items m)).lookup k =
      (applyPageEvents parse now items m).lookup k := by
  intro k
  have hwf1 : WFMap (applyPageEvents parse now items m) :=
    WFMap.foldl parse now items
      { nextEvents := m, created := [], updated := [], deleted := [] } hwf
  have h1 : (applyPageEvents parse now items m).lookup k =
      applyEffs (items.map (keyEffect parse now k)) (m.lookup k) :=
    lookup_foldl_processItem parse now items
      { nextEvents := m, created := [], updated := [], deleted := [] } k hwf
  have h2 : (applyPageEvents parse now items
        (applyPageEvents parse now items m)).lookup k =
      applyEffs (items.map (keyEffect parse now k))
        ((applyPageEvents parse now items m).lookup k) :=
    lookup_foldl_processItem parse now items
      { nextEvents := applyPageEvents parse now items m, created := []
        updated := [], deleted := [] } k hwf1
  calc (applyPageEvents parse now items
          (applyPageEvents parse now items m)).lookup k
      = applyEffs (items.map (keyEffect parse now k))
          ((applyPageEvents parse now items m).lookup k) := h2
    _ = applyEffs (items.map (keyEffect parse now k))
          (applyEffs (items.map (keyEffect parse now k)) (m.lookup k)) := by
          rw [h1]
    _ = applyEffs (items.map (keyEffect parse now k)) (m.lookup k) :=
          applyEffs_idem _ _
    _ = (applyPageEvents parse now items m).lookup k := h1.symm

theorem applyPage_idempotent_witness :
    (applyPageEvents pOne 0 [sampleRaw]
        (applyPageEvents pOne 0 [sampleRaw]
          [("A", ⟨"A", "X", "s", "e"⟩)])).lookup "B" =
      (applyPageEvents pOne 0 [sampleRaw]
        [("A", ⟨"A", "X", "s", "e"⟩)]).lookup "B" :=
  applyPage_idempotent pOne 0 [sampleRaw] [("A", ⟨"A", "X", "s", "e"⟩)]
    (by unfold WFMap; decide) "B"

end GCal
